import Mathlib

/-!
Shallow embedding of repos.py (class Repos, parse_args and the wiring in main),
a tool that reconciles a GitHub user remote repository inventory against a local
workspace folder, cloning missing repositories and deleting orphaned folders.

Modelling conventions, used throughout:
* The filesystem under repo_folder is represented by its directory listing
  fs : List String; os.listdir(repo_folder) is fs, and
  os.path.exists(repo_folder + name) is fs.contains name.
* self.active_repos (a Python dict, insertion ordered, unique keys) is an
  association list Inventory; iterating the dict visits each key and looks its
  record up, exactly as for repo in self.active_repos with
  self.active_repos[repo] does.
* A Python KeyError or NameError escaping a loop is modelled by an explicit
  failure value (none, or a raised flag), carrying the state reached so far.
-/

/-- Record stored in self.active_repos under a repository name by Repos.get. -/
structure RepoRecord where
  archived : Bool
  created_at : String
  default_branch : String
  git_url : String
  last_modified : String
  orphaned : Bool
  size : Nat
  ssh_url : String
  watchers_count : Nat
  visibility : String
deriving Repr, DecidableEq

/-- Model of the dict self.active_repos, in insertion order. -/
abbrev Inventory := List (String × RepoRecord)

/-- One element of the iterator g.get_user().get_repos(). -/
structure RemoteRepo where
  name : String
  owner : String
  archived : Bool
  created_at : String
  default_branch : String
  git_url : String
  last_modified : String
  size : Nat
  ssh_url : String
  watchers_count : Nat
  visibility : String
deriving Repr, DecidableEq

/-- Module constant ignored_folders of repos.py. -/
def ignored_folders : List String := [".git", ".DS_Store", ".obsidian"]

/-- Module constant USE_GIT_URL of repos.py. -/
def USE_GIT_URL : Bool := false

/-- Key listing of the dict: what for repo in self.active_repos iterates. -/
def invKeys (inv : Inventory) : List String := inv.map Prod.fst

/-- Dict access self.active_repos[name]; none models a KeyError. -/
def invLookup (inv : Inventory) (name : String) : Option RepoRecord :=
  (inv.find? (fun p => p.1 == name)).map Prod.snd

/-- Dict update self.active_repos[name]["orphaned"] = True. -/
def invSetOrphaned (inv : Inventory) (name : String) : Inventory :=
  inv.map (fun p => if p.1 == name then (p.1, { p.2 with orphaned := true }) else p)

/-- Python str.lower, character by character (the replies compared here are
single ASCII characters such as the letter y). -/
def pyLower (s : String) : String := ⟨s.data.map Char.toLower⟩

/-- Repos.get (repos.py lines 60 to 76): build self.active_repos from the
fetched repositories whose owner login equals the configured user u.  The forge
guarantees one repository per name and owner, so appending in iteration order
models dict insertion. -/
def Repos.get (remote : List RemoteRepo) (u : String) : Inventory :=
  remote.foldl
    (fun active_repos repo =>
      if repo.owner == u then
        active_repos ++
          [(repo.name,
            { archived := repo.archived
              created_at := repo.created_at
              default_branch := repo.default_branch
              git_url := repo.git_url
              last_modified := repo.last_modified
              orphaned := false
              size := repo.size
              ssh_url := repo.ssh_url
              watchers_count := repo.watchers_count
              visibility := repo.visibility })]
      else active_repos)
    []

/-- Repos.missing (repos.py lines 98 to 110): iterate the inventory keys; skip
archived entries unless include_archived; append names absent from disk; then
append names whose record is flagged orphaned and which are present on disk. -/
def Repos.missing (inv : Inventory) (fs : List String) (include_archived : Bool) :
    List String :=
  (invKeys inv).foldl
    (fun missing_repos repo =>
      match invLookup inv repo with
      | none => missing_repos
      | some r =>
        if !include_archived && r.archived then missing_repos
        else
          let missing_repos :=
            if !fs.contains repo then missing_repos ++ [repo] else missing_repos
          if r.orphaned && fs.contains repo then missing_repos ++ [repo]
          else missing_repos)
    []

/-- Orphan detection of Repos.delete (repos.py lines 114 to 122): local
listing entries outside ignored_folders that are not inventory keys, followed
by inventory keys whose record is archived (when include_archived is false)
and which are present on disk. -/
def Repos.orphaned (inv : Inventory) (fs : List String) (include_archived : Bool) :
    List String :=
  let orphaned_repos :=
    fs.foldl
      (fun orphaned_repos repo =>
        if !ignored_folders.contains repo then
          if !(invKeys inv).contains repo then orphaned_repos ++ [repo]
          else orphaned_repos
        else orphaned_repos)
      []
  (invKeys inv).foldl
    (fun orphaned_repos repo =>
      match invLookup inv repo with
      | none => orphaned_repos
      | some r =>
        if !include_archived then
          if r.archived then
            if fs.contains repo then orphaned_repos ++ [repo] else orphaned_repos
          else orphaned_repos
        else orphaned_repos)
    orphaned_repos

/-- One iteration of the Repos.clone loop (repos.py lines 80 to 96) at repo.
Returns none where Python raises KeyError (the first self.active_repos[repo]
access of a name absent from the dict: the archived test when include_archived
is false, otherwise the clone url access when the target folder is absent).
Otherwise returns the listing afterwards and, when Repo.clone_from ran, the
(name, url) it was given.  Cloning materialises the folder, so the listing
gains repo. -/
def Repos.cloneStep (inv : Inventory) (include_archived : Bool) (fs : List String)
    (repo : String) : Option (List String × Option (String × String)) :=
  match invLookup inv repo with
  | none =>
    if !include_archived then none
    else if !fs.contains repo then none
    else some (fs, none)
  | some r =>
    if !include_archived && r.archived then some (fs, none)
    else if !fs.contains repo then
      let url :=
        if USE_GIT_URL then r.git_url
        else r.ssh_url.replace ("github.com") ("github-dg")
      some (fs ++ [repo], some (repo, url))
    else some (fs, none)

/-- Repos.clone (repos.py lines 78 to 96) over a missing_repos list: the
listing after the loop and the (name, url) pairs passed to Repo.clone_from,
or none when a KeyError escapes the loop. -/
def Repos.clone (inv : Inventory) (include_archived : Bool) :
    List String → List String → Option (List String × List (String × String))
  | fs, [] => some (fs, [])
  | fs, repo :: rest =>
    (Repos.cloneStep inv include_archived fs repo).bind (fun sc =>
      (Repos.clone inv include_archived sc.1 rest).map (fun fc =>
        (fc.1, sc.2.toList ++ fc.2)))

/-- Result of one Repos.delete call. -/
structure DeleteResult where
  orphaned_repos : List String
  deleted : List String
  prompts : List String
  message : String
  fs : List String
deriving Repr, DecidableEq

/-- Deletion loop of Repos.delete (repos.py lines 124 to 133) over the
orphaned names.  The state is (deleted names, prompted names, listing); when
ignore_prompt is set or the run is not interactive the name is removed without
a prompt, otherwise input() is read and the name removed only when the reply
lowercases to the letter y.  Removal models rm -rf: the name leaves the listing. -/
def Repos.deleteLoop (interactive : Bool) (ignore_prompt : Bool)
    (answers : String → String) :
    List String → List String × List String × List String →
      List String × List String × List String
  | [], st => st
  | repo :: rest, st =>
    if ignore_prompt || !interactive then
      Repos.deleteLoop interactive ignore_prompt answers rest
        (st.1 ++ [repo], st.2.1, st.2.2.filter (fun x => x != repo))
    else if pyLower (answers repo) == "y" then
      Repos.deleteLoop interactive ignore_prompt answers rest
        (st.1 ++ [repo], st.2.1 ++ [repo], st.2.2.filter (fun x => x != repo))
    else
      Repos.deleteLoop interactive ignore_prompt answers rest
        (st.1, st.2.1 ++ [repo], st.2.2)

/-- Repos.delete (repos.py lines 112 to 138).  answers repo is the reply that
input() returns when the user is prompted about repo; deleted records the
names removed by rm -rf in order, prompts the names that were prompted for.
The final print is message. -/
def Repos.delete (inv : Inventory) (fs : List String) (include_archived : Bool)
    (interactive : Bool) (ignore_prompt : Bool) (answers : String → String) :
    DeleteResult :=
  let orphaned_repos := Repos.orphaned inv fs include_archived
  if orphaned_repos.isEmpty then
    { orphaned_repos := orphaned_repos, deleted := [], prompts := [],
      message := "No orphaned repos found.", fs := fs }
  else
    let final := Repos.deleteLoop interactive ignore_prompt answers
      orphaned_repos ([], [], fs)
    { orphaned_repos := orphaned_repos, deleted := final.1, prompts := final.2.1,
      message := "Deleted " ++ toString final.1.length ++ " orphaned repos.",
      fs := final.2.2 }

/-- Working tree status that the git library reports for an opened folder. -/
structure GitStatus where
  untracked_files : Bool
  is_dirty : Bool
deriving Repr, DecidableEq

/-- Outcome of Repos.print: the status lines emitted, the inventory afterwards
(print mutates the orphaned flag), and whether an exception escaped the loop. -/
structure PrintResult where
  lines : List String
  active_repos : Inventory
  raised : Bool
deriving Repr, DecidableEq

/-- Loop of Repos.print (repos.py lines 140 to 159).  git name is some of the
working tree status when Repo(repo_folder + name) succeeds and none when the
constructor raises.  current_repo is the Python local variable of that name:
none while it has never been assigned.  After a failed open the except handler
sets the orphaned flag and execution falls through to
current_repo.untracked_files, reading the stale value of current_repo from an
earlier iteration; raised = true models the exception that escapes the loop
when current_repo is unbound (NameError) or a printed name is not an inventory
key (KeyError). -/
def Repos.printLoop (fs : List String) (git : String → Option GitStatus) :
    List String → Inventory → Option GitStatus → List String → PrintResult
  | [], inv, _, lines => { lines := lines, active_repos := inv, raised := false }
  | repo :: rest, inv, current_repo, lines =>
    if fs.contains repo then
      match git repo with
      | some st =>
        if st.untracked_files then
          Repos.printLoop fs git rest inv (some st)
            (lines ++ ["\x1b[0;33m●\x1b[0m " ++ repo ++ " (untracked files)"])
        else if st.is_dirty then
          Repos.printLoop fs git rest inv (some st)
            (lines ++ ["\x1b[0;33m●\x1b[0m " ++ repo ++ " (dirty)"])
        else
          match invLookup inv repo with
          | none => { lines := lines, active_repos := inv, raised := true }
          | some r =>
            if r.orphaned then
              Repos.printLoop fs git rest inv (some st)
                (lines ++ ["\x1b[0;33m●\x1b[0m " ++ repo ++ " (orphaned)"])
            else if r.archived then
              Repos.printLoop fs git rest inv (some st)
                (lines ++ ["\x1b[0;30;40m●\x1b[0m " ++ repo ++ " (archived)"])
            else
              Repos.printLoop fs git rest inv (some st)
                (lines ++ ["\x1b[0;32m●\x1b[0m " ++ repo])
      | none =>
        match invLookup inv repo with
        | none => { lines := lines, active_repos := inv, raised := true }
        | some _ =>
          let inv := invSetOrphaned inv repo
          match current_repo with
          | none => { lines := lines, active_repos := inv, raised := true }
          | some st =>
            if st.untracked_files then
              Repos.printLoop fs git rest inv (some st)
                (lines ++ ["\x1b[0;33m●\x1b[0m " ++ repo ++ " (untracked files)"])
            else if st.is_dirty then
              Repos.printLoop fs git rest inv (some st)
                (lines ++ ["\x1b[0;33m●\x1b[0m " ++ repo ++ " (dirty)"])
            else
              match invLookup inv repo with
              | none => { lines := lines, active_repos := inv, raised := true }
              | some r =>
                if r.orphaned then
                  Repos.printLoop fs git rest inv (some st)
                    (lines ++ ["\x1b[0;33m●\x1b[0m " ++ repo ++ " (orphaned)"])
                else if r.archived then
                  Repos.printLoop fs git rest inv (some st)
                    (lines ++ ["\x1b[0;30;40m●\x1b[0m " ++ repo ++ " (archived)"])
                else
                  Repos.printLoop fs git rest inv (some st)
                    (lines ++ ["\x1b[0;32m●\x1b[0m " ++ repo])
    else
      Repos.printLoop fs git rest inv current_repo
        (lines ++ ["\x1b[0;30;40m●\x1b[0m " ++ repo ++ " (archived not cloned)"])

/-- Repos.print over a list of repository names. -/
def Repos.print (inv : Inventory) (fs : List String)
    (git : String → Option GitStatus) (repos : List String) : PrintResult :=
  Repos.printLoop fs git repos inv none []

/-- Instance state set up by the Repos constructor. -/
structure ReposState where
  repos : List RemoteRepo
  interactive : Bool
  include_archived : Bool
  active_repos : Inventory
  missing_repos : List String
  orphaned_repos : List String
  orphaned_repos_deleted : Nat
deriving Repr, DecidableEq

/-- Repos constructor (repos.py lines 51 to 58): fetch the raw repository
iterator, set self.active_repos to the empty dict, then compute
self.missing_repos = self.missing() over that still empty dict. -/
def Repos.init (remote : List RemoteRepo) (fs : List String)
    (include_archived : Bool) (interactive : Bool) : ReposState :=
  let active_repos : Inventory := []
  { repos := remote
    interactive := interactive
    include_archived := include_archived
    active_repos := active_repos
    missing_repos := Repos.missing active_repos fs include_archived
    orphaned_repos := []
    orphaned_repos_deleted := 0 }

/-- Flag strings accepted by the argparse configuration of parse_args. -/
def knownFlags : List String :=
  ["-a", "--archived", "-c", "--clone", "-d", "--delete", "-m", "--missing",
   "-y", "--yes"]

/-- Parsed boolean flags of parse_args. -/
structure Args where
  archived : Bool
  clone : Bool
  delete : Bool
  missing : Bool
  yes : Bool
deriving Repr, DecidableEq

/-- Model of parser.parse_known_args(): the recognised store_true flags and
the list of leftover unrecognised tokens. -/
def parseKnown (argv : List String) : Args × List String :=
  ({ archived := argv.contains ("-a") || argv.contains ("--archived")
     clone := argv.contains ("-c") || argv.contains ("--clone")
     delete := argv.contains ("-d") || argv.contains ("--delete")
     missing := argv.contains ("-m") || argv.contains ("--missing")
     yes := argv.contains ("-y") || argv.contains ("--yes") },
   argv.filter (fun a => !knownFlags.contains a))

/-- parse_args (repos.py lines 162 to 189).  stdinPresent models sys.stdin
being non null and isatty models sys.stdin.isatty(); none models sys.exit(1)
after parser.print_help(). -/
def parse_args (argv : List String) (stdinPresent : Bool) (isatty : Bool) :
    Option Args :=
  let parsed := parseKnown argv
  if stdinPresent && isatty then
    if !parsed.2.isEmpty then none else some parsed.1
  else some parsed.1

/-- Interactivity flag computed in main (repos.py lines 201 to 202). -/
def mainInteractive (stdinPresent : Bool) (isatty : Bool) : Bool :=
  stdinPresent && isatty

/-- Per key contribution of one Repos.missing loop iteration (used by the
membership lemmas below). -/
def missingOut (inv : Inventory) (fs : List String) (include_archived : Bool)
    (repo : String) : List String :=
  match invLookup inv repo with
  | none => []
  | some r =>
    if !include_archived && r.archived then []
    else
      (if !fs.contains repo then [repo] else []) ++
        (if r.orphaned && fs.contains repo then [repo] else [])

/-- Per entry contribution of the first orphan detection loop. -/
def orphanedLocalOut (inv : Inventory) (repo : String) : List String :=
  if !ignored_folders.contains repo then
    if !(invKeys inv).contains repo then [repo] else []
  else []

/-- Per key contribution of the second orphan detection loop. -/
def orphanedKeyOut (inv : Inventory) (fs : List String) (include_archived : Bool)
    (repo : String) : List String :=
  match invLookup inv repo with
  | none => []
  | some r =>
    if !include_archived then
      if r.archived then
        if fs.contains repo then [repo] else []
      else []
    else []

/-- A non archived repository record used by the concrete evaluations below. -/
def activeRecord : RepoRecord :=
  { archived := false
    created_at := "2024-01-01"
    default_branch := "main"
    git_url := "git://github.com/user/alpha.git"
    last_modified := "2024-06-01"
    orphaned := false
    size := 1
    ssh_url := "git@github.com:user/alpha.git"
    watchers_count := 0
    visibility := "public" }

/-- The same record with the orphaned flag set. -/
def orphanedFlagRecord : RepoRecord := { activeRecord with orphaned := true }

/-- The same record, archived. -/
def archivedRecord : RepoRecord := { activeRecord with archived := true }

/-- A remote repository owned by the demo user, for the fetch model. -/
def demoRemote : RemoteRepo :=
  { name := "demo"
    owner := "user"
    archived := false
    created_at := "2024-01-01"
    default_branch := "main"
    git_url := "git://github.com/user/demo.git"
    last_modified := "2024-06-01"
    size := 1
    ssh_url := "git@github.com:user/demo.git"
    watchers_count := 0
    visibility := "public" }

/-- Inventory with a record whose orphaned flag is set (counterexample input). -/
def c2inv : Inventory := [("alpha", orphanedFlagRecord)]

/-- Two entry inventory for the print evaluations. -/
def c4inv : Inventory := [("alpha", activeRecord), ("beta", activeRecord)]

/-- Git opener for which alpha is corrupted and beta opens cleanly. -/
def c4git : String → Option GitStatus := fun repo =>
  if repo == "beta" then some { untracked_files := false, is_dirty := false }
  else none

/-- Single entry inventory for the reporter mutation counterexample. -/
def c5inv : Inventory := [("alpha", activeRecord)]

/-- Git opener that always fails (corrupted working tree). -/
def c5gitBad : String → Option GitStatus := fun _ => none

/-- Git opener that always succeeds with a clean status. -/
def cleanGit : String → Option GitStatus := fun _ =>
  some { untracked_files := false, is_dirty := false }

/-- Single entry inventory for the clone idempotence witness. -/
def c6inv : Inventory := [("alpha", activeRecord)]

/-! ## Supporting lemmas -/

theorem foldl_append_flatMap {α β : Type} (g : α → List β) (l : List α) :
    ∀ acc : List β, List.foldl (fun a x => a ++ g x) acc l = acc ++ l.flatMap g := by
  induction l with
  | nil => intro acc; simp
  | cons x xs ih => intro acc; simp [ih]

theorem mem_invKeys_iff {inv : Inventory} {a : String} :
    a ∈ invKeys inv ↔ ∃ p ∈ inv, p.1 = a := by
  simp [invKeys, List.mem_map]

theorem mem_invKeys_of_lookup {inv : Inventory} {a : String} {r : RepoRecord}
    (h : invLookup inv a = some r) : a ∈ invKeys inv := by
  unfold invLookup at h
  cases hf : inv.find? (fun p => p.1 == a) with
  | none => rw [hf] at h; simp at h
  | some p =>
    have hp : p ∈ inv := List.mem_of_find?_eq_some hf
    have hpa := List.find?_some hf
    exact mem_invKeys_iff.mpr ⟨p, hp, by simpa using hpa⟩

theorem lookup_pair_mem {inv : Inventory} {a : String} {r : RepoRecord}
    (h : invLookup inv a = some r) : (a, r) ∈ inv := by
  unfold invLookup at h
  cases hf : inv.find? (fun p => p.1 == a) with
  | none => rw [hf] at h; simp at h
  | some p =>
    rw [hf] at h
    have hp : p ∈ inv := List.mem_of_find?_eq_some hf
    have hpa := List.find?_some hf
    have h1 : p.1 = a := by simpa using hpa
    have h2 : p.2 = r := by simpa using h
    have : (a, r) = p := by
      cases p
      simp_all
    rw [this]
    exact hp

theorem lookup_eq_none_iff {inv : Inventory} {a : String} :
    invLookup inv a = none ↔ a ∉ invKeys inv := by
  unfold invLookup
  rw [Option.map_eq_none']
  rw [List.find?_eq_none]
  constructor
  · intro h hk
    obtain ⟨p, hp, hpa⟩ := mem_invKeys_iff.mp hk
    exact h p hp (by simp [hpa])
  · intro h p hp hpa
    exact h (mem_invKeys_iff.mpr ⟨p, hp, by simpa using hpa⟩)

theorem lookup_isSome_of_mem_invKeys {inv : Inventory} {a : String}
    (h : a ∈ invKeys inv) : (invLookup inv a).isSome := by
  cases hl : invLookup inv a with
  | none => exact absurd h (lookup_eq_none_iff.mp hl)
  | some r => rfl

theorem missing_eq_flatMap (inv : Inventory) (fs : List String) (incl : Bool) :
    Repos.missing inv fs incl = (invKeys inv).flatMap (missingOut inv fs incl) := by
  unfold Repos.missing
  have hext :
      List.foldl
        (fun missing_repos repo =>
          match invLookup inv repo with
          | none => missing_repos
          | some r =>
            if !incl && r.archived then missing_repos
            else
              let missing_repos :=
                if !fs.contains repo then missing_repos ++ [repo] else missing_repos
              if r.orphaned && fs.contains repo then missing_repos ++ [repo]
              else missing_repos)
        [] (invKeys inv) =
      List.foldl (fun acc repo => acc ++ missingOut inv fs incl repo) [] (invKeys inv) := by
    refine List.foldl_ext _ _ _ ?_
    intro acc repo hrepo
    unfold missingOut
    cases hl : invLookup inv repo with
    | none => simp
    | some r =>
      cases harch : (!incl && r.archived) with
      | true => simp [harch]
      | false =>
        cases hc : fs.contains repo with
        | false => simp [harch, hc]
        | true =>
          cases ho : r.orphaned with
          | false => simp [harch, hc, ho]
          | true => simp [harch, hc, ho]
  rw [hext, foldl_append_flatMap]
  simp

theorem mem_missingOut {inv : Inventory} {fs : List String} {incl : Bool}
    {repo a : String} :
    a ∈ missingOut inv fs incl repo ↔
      a = repo ∧ ∃ r, invLookup inv repo = some r ∧ (incl || !r.archived) = true ∧
        (fs.contains repo = false ∨ (r.orphaned = true ∧ fs.contains repo = true)) := by
  unfold missingOut
  cases hl : invLookup inv repo with
  | none => simp
  | some r =>
    cases hincl : incl <;> cases harch : r.archived <;>
      cases hc : fs.contains repo <;> cases ho : r.orphaned <;>
        simp [hincl, harch, hc, ho]

theorem mem_missing {inv : Inventory} {fs : List String} {incl : Bool} {a : String} :
    a ∈ Repos.missing inv fs incl ↔
      ∃ r, invLookup inv a = some r ∧ (incl || !r.archived) = true ∧
        (fs.contains a = false ∨ (r.orphaned = true ∧ fs.contains a = true)) := by
  rw [missing_eq_flatMap, List.mem_flatMap]
  constructor
  · rintro ⟨k, hk, ha⟩
    obtain ⟨rfl, hrest⟩ := mem_missingOut.mp ha
    exact hrest
  · rintro ⟨r, hl, hcond, hdisj⟩
    exact ⟨a, mem_invKeys_of_lookup hl,
      mem_missingOut.mpr ⟨rfl, r, hl, hcond, hdisj⟩⟩

theorem orphaned_eq_flatMap (inv : Inventory) (fs : List String) (incl : Bool) :
    Repos.orphaned inv fs incl =
      fs.flatMap (orphanedLocalOut inv) ++
        (invKeys inv).flatMap (orphanedKeyOut inv fs incl) := by
  unfold Repos.orphaned
  have h1 :
      List.foldl
        (fun orphaned_repos repo =>
          if !ignored_folders.contains repo then
            if !(invKeys inv).contains repo then orphaned_repos ++ [repo]
            else orphaned_repos
          else orphaned_repos)
        [] fs =
      List.foldl (fun acc repo => acc ++ orphanedLocalOut inv repo) [] fs := by
    refine List.foldl_ext _ _ _ ?_
    intro acc repo hrepo
    unfold orphanedLocalOut
    cases hig : ignored_folders.contains repo with
    | true => simp [hig]
    | false =>
      cases hk : (invKeys inv).contains repo with
      | true => simp [hig, hk]
      | false => simp [hig, hk]
  have h2 : ∀ start : List String,
      List.foldl
        (fun orphaned_repos repo =>
          match invLookup inv repo with
          | none => orphaned_repos
          | some r =>
            if !incl then
              if r.archived then
                if fs.contains repo then orphaned_repos ++ [repo] else orphaned_repos
              else orphaned_repos
            else orphaned_repos)
        start (invKeys inv) =
      List.foldl (fun acc repo => acc ++ orphanedKeyOut inv fs incl repo) start
        (invKeys inv) := by
    intro start
    refine List.foldl_ext _ _ _ ?_
    intro acc repo hrepo
    unfold orphanedKeyOut
    cases hl : invLookup inv repo with
    | none => simp
    | some r =>
      cases hincl : incl <;> cases harch : r.archived <;>
        cases hc : fs.contains repo <;> simp [hincl, harch, hc]
  rw [h1, foldl_append_flatMap, h2, foldl_append_flatMap]
  simp

theorem mem_orphanedLocalOut {inv : Inventory} {repo a : String} :
    a ∈ orphanedLocalOut inv repo ↔
      a = repo ∧ ignored_folders.contains repo = false ∧ invLookup inv repo = none := by
  unfold orphanedLocalOut
  cases hig : ignored_folders.contains repo with
  | true => simp [hig]
  | false =>
    cases hk : (invKeys inv).contains repo with
    | true =>
      have hsome : invLookup inv repo ≠ none := by
        intro hnone
        exact (lookup_eq_none_iff.mp hnone)
          (by simpa [List.contains, List.elem_iff] using hk)
      simp [hig, hk, hsome]
    | false =>
      have hnone : invLookup inv repo = none := by
        rw [lookup_eq_none_iff]
        intro hmem
        have hcon : (invKeys inv).contains repo = true := by
          simpa [List.contains, List.elem_iff] using hmem
        rw [hcon] at hk
        exact Bool.noConfusion hk
      simp [hig, hk, hnone]

theorem mem_orphanedKeyOut {inv : Inventory} {fs : List String} {incl : Bool}
    {repo a : String} :
    a ∈ orphanedKeyOut inv fs incl repo ↔
      a = repo ∧ ∃ r, invLookup inv repo = some r ∧ incl = false ∧
        r.archived = true ∧ fs.contains repo = true := by
  unfold orphanedKeyOut
  cases hl : invLookup inv repo with
  | none => simp
  | some r =>
    cases hincl : incl <;> cases harch : r.archived <;>
      cases hc : fs.contains repo <;> simp [hincl, harch, hc]

theorem mem_orphaned {inv : Inventory} {fs : List String} {incl : Bool} {a : String} :
    a ∈ Repos.orphaned inv fs incl ↔
      (a ∈ fs ∧ ignored_folders.contains a = false ∧ invLookup inv a = none) ∨
        (∃ r, invLookup inv a = some r ∧ incl = false ∧ r.archived = true ∧
          fs.contains a = true) := by
  rw [orphaned_eq_flatMap, List.mem_append, List.mem_flatMap, List.mem_flatMap]
  constructor
  · rintro (⟨k, hk, ha⟩ | ⟨k, hk, ha⟩)
    · obtain ⟨rfl, hig, hnone⟩ := mem_orphanedLocalOut.mp ha
      exact Or.inl ⟨hk, hig, hnone⟩
    · obtain ⟨rfl, hrest⟩ := mem_orphanedKeyOut.mp ha
      exact Or.inr hrest
  · rintro (⟨hfs, hig, hnone⟩ | ⟨r, hl, hincl, harch, hc⟩)
    · exact Or.inl ⟨a, hfs, mem_orphanedLocalOut.mpr ⟨rfl, hig, hnone⟩⟩
    · exact Or.inr ⟨a, mem_invKeys_of_lookup hl,
        mem_orphanedKeyOut.mpr ⟨rfl, r, hl, hincl, harch, hc⟩⟩

/-! ## Claim theorems -/

/-- C1: for every inventory, local listing and archived policy, the missing
set computed by Repos.missing and the orphaned set computed inside
Repos.delete are disjoint: their list intersection is empty. -/
theorem missing_inter_orphaned_nil :
    ∀ (inv : Inventory) (fs : List String) (incl : Bool),
      Repos.missing inv fs incl ∩ Repos.orphaned inv fs incl = [] := by
  intro inv fs incl
  have hdef : Repos.missing inv fs incl ∩ Repos.orphaned inv fs incl =
      (Repos.missing inv fs incl).filter
        (fun a => (Repos.orphaned inv fs incl).contains a) := rfl
  rw [hdef, List.filter_eq_nil_iff]
  intro a ha hmem
  have ho : a ∈ Repos.orphaned inv fs incl := by
    simpa [List.contains, List.elem_iff] using hmem
  obtain ⟨r, hl, hcond, _⟩ := mem_missing.mp ha
  rcases mem_orphaned.mp ho with ⟨_, _, hnone⟩ | ⟨r2, hl2, hincl, harch, _⟩
  · rw [hl] at hnone
    exact Option.noConfusion hnone
  · rw [hl] at hl2
    have hr : r = r2 := by injection hl2
    rw [hincl, hr, harch] at hcond
    simp at hcond

/-- C2 counterexample: with a record whose orphaned flag is set, Repos.missing
reports a name whose directory does exist on disk (the second loop branch of
Repos.missing adds orphaned and present names), refuting the claimed
equivalence in full generality. -/
theorem missing_contains_present_name :
    Repos.missing c2inv ["alpha"] false = ["alpha"] ∧
      (["alpha"] : List String).contains ("alpha") = true := by
  constructor
  · decide
  · decide

/-- C2 (amended): provided every record of the inventory has its orphaned flag
clear, as holds for inventories as Repos.get builds them, a name is in
Repos.missing iff it is an inventory key, non archived or include_archived,
and absent from disk; and with include_archived = false every reported name
has archived = false, unconditionally. -/
theorem missing_membership_spec (inv : Inventory) (fs : List String) (incl : Bool) :
    ((∀ p ∈ inv, p.2.orphaned = false) →
      ∀ n, n ∈ Repos.missing inv fs incl ↔
        ∃ r, invLookup inv n = some r ∧ (incl || !r.archived) = true ∧
          fs.contains n = false)
    ∧ (incl = false →
      ∀ n ∈ Repos.missing inv fs incl,
        ∃ r, invLookup inv n = some r ∧ r.archived = false) := by
  constructor
  · intro horph n
    rw [mem_missing]
    constructor
    · rintro ⟨r, hl, hcond, hdisj⟩
      refine ⟨r, hl, hcond, ?_⟩
      rcases hdisj with hc | ⟨ho, hc⟩
      · exact hc
      · have hflag := horph (n, r) (lookup_pair_mem hl)
        simp only at hflag
        rw [hflag] at ho
        exact Bool.noConfusion ho
    · rintro ⟨r, hl, hcond, hc⟩
      exact ⟨r, hl, hcond, Or.inl hc⟩
  · intro hincl n hn
    obtain ⟨r, hl, hcond, _⟩ := mem_missing.mp hn
    refine ⟨r, hl, ?_⟩
    rw [hincl] at hcond
    simpa using hcond

/-- Witness for the amended C2 statement at a concrete input. -/
theorem missing_membership_spec_witness :
    (("alpha" : String) ∈ Repos.missing c5inv [] false) ∧
      (∃ r, invLookup c5inv ("alpha") = some r ∧ r.archived = false) := by
  have h1 := (missing_membership_spec c5inv [] false).1 (by decide) ("alpha")
  refine ⟨h1.mpr ⟨activeRecord, by decide, by decide, by decide⟩, ?_⟩
  exact (missing_membership_spec c5inv [] false).2 rfl ("alpha")
    (h1.mpr ⟨activeRecord, by decide, by decide, by decide⟩)

/-- C3: a local listing entry outside the ignore set is in the orphaned set
iff it is not an inventory key, or its record is archived while
include_archived is false. -/
theorem orphaned_membership_spec (inv : Inventory) (fs : List String) (incl : Bool)
    (n : String) (hfs : n ∈ fs) (hig : ignored_folders.contains n = false) :
    n ∈ Repos.orphaned inv fs incl ↔
      (invLookup inv n = none ∨
        ∃ r, invLookup inv n = some r ∧ incl = false ∧ r.archived = true) := by
  rw [mem_orphaned]
  constructor
  · rintro (⟨_, _, hnone⟩ | ⟨r, hl, hincl, harch, _⟩)
    · exact Or.inl hnone
    · exact Or.inr ⟨r, hl, hincl, harch⟩
  · rintro (hnone | ⟨r, hl, hincl, harch⟩)
    · exact Or.inl ⟨hfs, hig, hnone⟩
    · refine Or.inr ⟨r, hl, hincl, harch, ?_⟩
      simpa [List.contains, List.elem_iff] using hfs

/-- Witness for C3 at a concrete input. -/
theorem orphaned_membership_spec_witness :
    ("ghost" : String) ∈ Repos.orphaned [] ["ghost"] false := by
  exact (orphaned_membership_spec [] ["ghost"] false ("ghost") (by decide)
    (by decide)).mpr (Or.inl (by decide))

theorem cloneStep_cases {inv : Inventory} {incl : Bool} {fs : List String}
    {repo : String} {fs' : List String} {c : Option (String × String)}
    (h : Repos.cloneStep inv incl fs repo = some (fs', c)) :
    (fs' = fs ∧ c = none) ∨
      (∃ url, fs' = fs ++ [repo] ∧ c = some (repo, url) ∧ repo ∉ fs) := by
  unfold Repos.cloneStep at h
  cases hl : invLookup inv repo with
  | none =>
    rw [hl] at h
    cases hincl : incl with
    | false => simp [hincl] at h
    | true =>
      simp [hincl] at h
      exact Or.inl ⟨h.2.1.symm, h.2.2.symm⟩
  | some r =>
    rw [hl] at h
    by_cases hcm : repo ∈ fs
    · cases hincl : incl <;> cases harch : r.archived <;>
        simp [hincl, harch, hcm] at h <;>
        exact Or.inl ⟨h.1.symm, h.2.symm⟩
    · cases hincl : incl <;> cases harch : r.archived <;>
        simp [hincl, harch, hcm] at h
      case neg.false.false => exact Or.inr ⟨_, h.1.symm, h.2.symm, hcm⟩
      case neg.false.true => exact Or.inl ⟨h.1.symm, h.2.symm⟩
      case neg.true.false => exact Or.inr ⟨_, h.1.symm, h.2.symm, hcm⟩
      case neg.true.true => exact Or.inr ⟨_, h.1.symm, h.2.symm, hcm⟩

theorem cloneStep_head_cov {inv : Inventory} {incl : Bool} {fs : List String}
    {repo : String} {fs' : List String} {c : Option (String × String)}
    (h : Repos.cloneStep inv incl fs repo = some (fs', c)) :
    (invLookup inv repo = none → incl = true ∧ repo ∈ fs') ∧
      (∀ r, invLookup inv repo = some r →
        (!incl && r.archived) = true ∨ repo ∈ fs') := by
  unfold Repos.cloneStep at h
  cases hl : invLookup inv repo with
  | none =>
    rw [hl] at h
    cases hincl : incl with
    | false => simp [hincl] at h
    | true =>
      simp [hincl] at h
      constructor
      · intro _
        exact ⟨rfl, h.2.1 ▸ h.1⟩
      · intro r hr
        exact Option.noConfusion hr
  | some r0 =>
    rw [hl] at h
    constructor
    · intro hn
      exact Option.noConfusion hn
    · intro r hr
      have hrr : r0 = r := by injection hr
      subst hrr
      cases hac : (!incl && r0.archived) with
      | true => exact Or.inl rfl
      | false =>
        by_cases hcm : repo ∈ fs
        · simp [hac, hcm] at h
          exact Or.inr (h.1 ▸ hcm)
        · simp [hac, hcm] at h
          exact Or.inr (h.1 ▸ (by simp : repo ∈ fs ++ [repo]))

theorem clone_result_fs {inv : Inventory} {incl : Bool} :
    ∀ {ms fs fs₁ : List String} {c₁ : List (String × String)},
      Repos.clone inv incl fs ms = some (fs₁, c₁) →
        fs₁ = fs ++ c₁.map Prod.fst := by
  intro ms
  induction ms with
  | nil =>
    intro fs fs₁ c₁ h
    simp [Repos.clone] at h
    simp [← h.1, ← h.2]
  | cons repo rest ih =>
    intro fs fs₁ c₁ h
    simp only [Repos.clone] at h
    cases hstep : Repos.cloneStep inv incl fs repo with
    | none => rw [hstep] at h; simp at h
    | some sc =>
      obtain ⟨fs', c⟩ := sc
      rw [hstep] at h
      rw [Option.some_bind] at h
      rw [Option.map_eq_some'] at h
      obtain ⟨⟨fs'', cloned⟩, hrec, heq⟩ := h
      have hfseq : fs'' = fs₁ := congrArg Prod.fst heq
      have hceq : c.toList ++ cloned = c₁ := congrArg Prod.snd heq
      have hrec' := ih hrec
      rcases cloneStep_cases hstep with ⟨hfs', hcnone⟩ | ⟨url, hfs', hcsome, _⟩
      · rw [hcnone] at hceq
        rw [hfs'] at hrec'
        rw [← hfseq, hrec', ← hceq]
        simp
      · rw [hcsome] at hceq
        rw [hfs'] at hrec'
        rw [← hfseq, hrec', ← hceq]
        simp

theorem clone_not_cloned_of_mem {inv : Inventory} {incl : Bool} :
    ∀ {ms fs fs₁ : List String} {c₁ : List (String × String)},
      Repos.clone inv incl fs ms = some (fs₁, c₁) →
      ∀ n ∈ fs, n ∉ c₁.map Prod.fst := by
  intro ms
  induction ms with
  | nil =>
    intro fs fs₁ c₁ h n hn
    simp [Repos.clone] at h
    rw [h.2]
    simp
  | cons repo rest ih =>
    intro fs fs₁ c₁ h n hn
    simp only [Repos.clone] at h
    cases hstep : Repos.cloneStep inv incl fs repo with
    | none => rw [hstep] at h; simp at h
    | some sc =>
      obtain ⟨fs', c⟩ := sc
      rw [hstep, Option.some_bind, Option.map_eq_some'] at h
      obtain ⟨⟨fs'', cloned⟩, hrec, heq⟩ := h
      have hceq : c.toList ++ cloned = c₁ := congrArg Prod.snd heq
      rcases cloneStep_cases hstep with ⟨hfs', hcnone⟩ | ⟨url, hfs', hcsome, hnotin⟩
      · rw [hcnone] at hceq
        simp at hceq
        rw [← hceq]
        rw [hfs'] at hrec
        exact ih hrec n hn
      · rw [hcsome] at hceq
        rw [hfs'] at hrec
        have hnotin2 : n ∉ cloned.map Prod.fst := ih hrec n (by simp [hn])
        rw [← hceq]
        intro hmem
        simp only [Option.toList, List.singleton_append, List.map_cons,
          List.mem_cons] at hmem
        rcases hmem with rfl | htail
        · exact hnotin hn
        · exact hnotin2 htail

theorem clone_covers {inv : Inventory} {incl : Bool} :
    ∀ {ms fs fs₁ : List String} {c₁ : List (String × String)},
      Repos.clone inv incl fs ms = some (fs₁, c₁) →
      ∀ repo ∈ ms,
        (invLookup inv repo = none → incl = true ∧ repo ∈ fs₁) ∧
          (∀ r, invLookup inv repo = some r →
            (!incl && r.archived) = true ∨ repo ∈ fs₁) := by
  intro ms
  induction ms with
  | nil =>
    intro fs fs₁ c₁ h repo hr
    simp at hr
  | cons repo0 rest ih =>
    intro fs fs₁ c₁ h repo hr
    simp only [Repos.clone] at h
    cases hstep : Repos.cloneStep inv incl fs repo0 with
    | none => rw [hstep] at h; simp at h
    | some sc =>
      obtain ⟨fs', c⟩ := sc
      rw [hstep, Option.some_bind, Option.map_eq_some'] at h
      obtain ⟨⟨fs'', cloned⟩, hrec, heq⟩ := h
      have hfseq : fs'' = fs₁ := congrArg Prod.fst heq
      have hsub : ∀ x, x ∈ fs' → x ∈ fs₁ := by
        intro x hx
        have hr' := clone_result_fs hrec
        rw [hfseq] at hr'
        rw [hr']
        exact List.mem_append_left _ hx
      rcases List.mem_cons.mp hr with rfl | htail
      · have hcov := cloneStep_head_cov hstep
        constructor
        · intro hn
          obtain ⟨hincl, hmem⟩ := hcov.1 hn
          exact ⟨hincl, hsub _ hmem⟩
        · intro r hlr
          rcases hcov.2 r hlr with hac | hmem
          · exact Or.inl hac
          · exact Or.inr (hsub _ hmem)
      · have hcov := ih hrec repo htail
        rw [hfseq] at hcov
        exact hcov

theorem clone_skips {inv : Inventory} {incl : Bool} :
    ∀ (ms fs : List String),
      (∀ repo ∈ ms,
        (invLookup inv repo = none → incl = true ∧ repo ∈ fs) ∧
          (∀ r, invLookup inv repo = some r →
            (!incl && r.archived) = true ∨ repo ∈ fs)) →
      Repos.clone inv incl fs ms = some (fs, []) := by
  intro ms
  induction ms with
  | nil => intro fs _; rfl
  | cons repo rest ih =>
    intro fs h
    have hhead := h repo (List.mem_cons_self _ _)
    have hstep : Repos.cloneStep inv incl fs repo = some (fs, none) := by
      unfold Repos.cloneStep
      cases hl : invLookup inv repo with
      | none =>
        obtain ⟨hincl, hmem⟩ := hhead.1 hl
        have hc : fs.contains repo = true := by
          simpa [List.contains, List.elem_iff] using hmem
        simp [hincl, hc, hmem]
      | some r =>
        rcases hhead.2 r hl with hac | hmem
        · simp [hac]
        · have hc : fs.contains repo = true := by
            simpa [List.contains, List.elem_iff] using hmem
          cases hac2 : (!incl && r.archived) with
          | true => simp [hac2]
          | false => simp [hac2, hc, hmem]
    simp only [Repos.clone]
    rw [hstep, Option.some_bind]
    rw [ih fs (fun repo' hr => h repo' (List.mem_cons_of_mem _ hr))]
    simp [Option.toList]

/-- C6: the Repos.clone loop never clones a name whose folder already exists,
and after one successful run over a missing list, running the loop again over
the same list with the resulting filesystem clones nothing and leaves the
filesystem unchanged. -/
theorem clone_idempotent (inv : Inventory) (incl : Bool)
    (fs ms fs₁ : List String) (c₁ : List (String × String))
    (h : Repos.clone inv incl fs ms = some (fs₁, c₁)) :
    (∀ n ∈ fs, n ∉ c₁.map Prod.fst) ∧
      Repos.clone inv incl fs₁ ms = some (fs₁, []) := by
  refine ⟨clone_not_cloned_of_mem h, ?_⟩
  exact clone_skips ms fs₁ (clone_covers h)

/-- Witness for C6 at a concrete input. -/
theorem clone_idempotent_witness :
    (∀ n ∈ (["alpha"] : List String),
        n ∉ ([] : List (String × String)).map Prod.fst) ∧
      Repos.clone c6inv false ["alpha"] ["alpha"] = some (["alpha"], []) :=
  clone_idempotent c6inv false ["alpha"] ["alpha"] ["alpha"] [] (by decide)

theorem deleteLoop_spec (inter ign : Bool) (answers : String → String) :
    ∀ (l d p f : List String),
      ((Repos.deleteLoop inter ign answers l (d, p, f)).1 =
        (if (ign || !inter) = true then d ++ l
         else d ++ l.filter (fun repo => pyLower (answers repo) == "y"))) ∧
      ((Repos.deleteLoop inter ign answers l (d, p, f)).2.1 =
        (if (ign || !inter) = true then p else p ++ l)) := by
  intro l
  induction l with
  | nil =>
    intro d p f
    cases hcond : (ign || !inter) <;> simp [Repos.deleteLoop, hcond]
  | cons repo rest ih =>
    intro d p f
    cases hcond : (ign || !inter) with
    | true =>
      have hstep := ih (d ++ [repo]) p (f.filter (fun x => x != repo))
      rw [hcond] at hstep
      simp at hstep
      simp [Repos.deleteLoop, hcond, hstep.1, hstep.2]
    | false =>
      by_cases hy : (pyLower (answers repo) == "y") = true
      · have hstep := ih (d ++ [repo]) (p ++ [repo]) (f.filter (fun x => x != repo))
        rw [hcond] at hstep
        simp at hstep
        simp [Repos.deleteLoop, hcond, hy, hstep.1, hstep.2]
      · have hstep := ih d (p ++ [repo]) f
        rw [hcond] at hstep
        simp at hstep
        simp [Repos.deleteLoop, hcond, hy, hstep.1, hstep.2]

theorem delete_deleted_prompts (inv : Inventory) (fs : List String)
    (incl inter ign : Bool) (answers : String → String) :
    ((Repos.delete inv fs incl inter ign answers).deleted =
      (if (ign || !inter) = true then Repos.orphaned inv fs incl
       else (Repos.orphaned inv fs incl).filter
          (fun repo => pyLower (answers repo) == "y"))) ∧
      ((Repos.delete inv fs incl inter ign answers).prompts =
        (if (ign || !inter) = true then [] else Repos.orphaned inv fs incl)) := by
  unfold Repos.delete
  cases hemp : (Repos.orphaned inv fs incl).isEmpty with
  | true =>
    have hnil : Repos.orphaned inv fs incl = [] := by
      simpa [List.isEmpty_iff] using hemp
    rw [hnil]
    cases hcond : (ign || !inter) <;> simp [hcond]
  | false =>
    have := deleteLoop_spec inter ign answers (Repos.orphaned inv fs incl) [] [] fs
    simp only [List.nil_append] at this
    simp [hemp, this.1, this.2]

/-- C7: Repos.delete reports the count of deletions actually performed; with an
empty orphaned set it prints the distinct no-orphans message, while a non
empty orphaned set with every prompt declined in an interactive run prints
the deleted-count message with a count of zero. -/
theorem delete_report (inv : Inventory) (fs : List String) (incl inter ign : Bool)
    (answers : String → String) :
    (Repos.orphaned inv fs incl = [] →
      (Repos.delete inv fs incl inter ign answers).message =
        "No orphaned repos found.")
    ∧ (Repos.orphaned inv fs incl ≠ [] →
      (Repos.delete inv fs incl inter ign answers).message =
        "Deleted " ++
          toString (Repos.delete inv fs incl inter ign answers).deleted.length ++
          " orphaned repos.")
    ∧ (Repos.orphaned inv fs incl ≠ [] → inter = true → ign = false →
      (∀ repo ∈ Repos.orphaned inv fs incl, pyLower (answers repo) ≠ "y") →
      ((Repos.delete inv fs incl inter ign answers).message =
          "Deleted 0 orphaned repos." ∧
        "Deleted 0 orphaned repos." ≠ "No orphaned repos found.")) := by
  have hmsg_ne : Repos.orphaned inv fs incl ≠ [] →
      (Repos.delete inv fs incl inter ign answers).message =
        "Deleted " ++
          toString (Repos.delete inv fs incl inter ign answers).deleted.length ++
          " orphaned repos." := by
    intro hne
    have hemp : (Repos.orphaned inv fs incl).isEmpty = false := by
      cases h : (Repos.orphaned inv fs incl).isEmpty with
      | false => rfl
      | true => exact absurd (by simpa [List.isEmpty_iff] using h) hne
    unfold Repos.delete
    simp [hemp]
  refine ⟨?_, hmsg_ne, ?_⟩
  · intro h0
    unfold Repos.delete
    simp [h0]
  · intro hne hinter hign hdecl
    subst hinter
    subst hign
    have hdel : (Repos.delete inv fs incl true false answers).deleted = [] := by
      have h1 := (delete_deleted_prompts inv fs incl true false answers).1
      simp at h1
      rw [h1, List.filter_eq_nil_iff]
      intro a ha
      simp [hdecl a ha]
    constructor
    · rw [hmsg_ne hne, hdel]
      decide
    · decide

/-- Witness for C7 at a concrete input: one orphaned folder, interactive run,
every prompt declined. -/
theorem delete_report_witness :
    (Repos.delete [] ["ghost"] false true false (fun _ => "n")).message =
      "Deleted 0 orphaned repos." :=
  ((delete_report [] ["ghost"] false true false (fun _ => "n")).2.2 (by decide)
    rfl rfl (by decide)).1

/-- C8: with --yes or a non interactive run, Repos.delete removes every
orphaned folder without prompting; in an interactive run without --yes every
orphaned name is prompted individually and removed exactly when the reply
lowercases to the letter y. -/
theorem delete_confirm_policy (inv : Inventory) (fs : List String) (incl : Bool)
    (stdinPresent isatty yes : Bool) (answers : String → String) :
    ((yes = true ∨ mainInteractive stdinPresent isatty = false) →
      ((Repos.delete inv fs incl (mainInteractive stdinPresent isatty) yes
          answers).prompts = [] ∧
        (Repos.delete inv fs incl (mainInteractive stdinPresent isatty) yes
          answers).deleted = Repos.orphaned inv fs incl))
    ∧ (mainInteractive stdinPresent isatty = true → yes = false →
      ((Repos.delete inv fs incl (mainInteractive stdinPresent isatty) yes
          answers).prompts = Repos.orphaned inv fs incl ∧
        (Repos.delete inv fs incl (mainInteractive stdinPresent isatty) yes
          answers).deleted =
          (Repos.orphaned inv fs incl).filter
            (fun repo => pyLower (answers repo) == "y"))) := by
  have hsp := delete_deleted_prompts inv fs incl
    (mainInteractive stdinPresent isatty) yes answers
  constructor
  · intro hcase
    have hcond : (yes || !(mainInteractive stdinPresent isatty)) = true := by
      rcases hcase with h | h <;> simp [h]
    rw [hcond] at hsp
    simp at hsp
    exact ⟨hsp.2, hsp.1⟩
  · intro hint hyes
    have hcond : (yes || !(mainInteractive stdinPresent isatty)) = false := by
      simp [hint, hyes]
    rw [hcond] at hsp
    simp at hsp
    exact ⟨hsp.2, hsp.1⟩

/-- Witness for C8 at a concrete input: non interactive run without --yes
still deletes the orphaned folder without prompting. -/
theorem delete_confirm_policy_witness :
    (Repos.delete [] ["ghost"] false (mainInteractive false false) false
        (fun _ => "n")).prompts = [] ∧
      (Repos.delete [] ["ghost"] false (mainInteractive false false) false
        (fun _ => "n")).deleted = Repos.orphaned [] ["ghost"] false :=
  (delete_confirm_policy [] ["ghost"] false false false false (fun _ => "n")).1
    (Or.inr rfl)

theorem printLoop_inv_const (fs : List String) (git : String → Option GitStatus) :
    ∀ (names : List String) (inv : Inventory) (cur : Option GitStatus)
      (lines : List String),
      (∀ n ∈ names, fs.contains n = true → (git n).isSome) →
      (Repos.printLoop fs git names inv cur lines).active_repos = inv := by
  intro names
  induction names with
  | nil => intro inv cur lines _; rfl
  | cons repo rest ih =>
    intro inv cur lines h
    have hrest : ∀ n ∈ rest, fs.contains n = true → (git n).isSome :=
      fun n hn => h n (List.mem_cons_of_mem _ hn)
    by_cases hc : fs.contains repo = true
    · have hgit : (git repo).isSome := h repo (List.mem_cons_self _ _) hc
      obtain ⟨st, hst⟩ := Option.isSome_iff_exists.mp hgit
      simp only [Repos.printLoop, hc, hst]
      repeat' split
      all_goals first
        | rfl
        | exact ih inv (some st) _ hrest
        | exact absurd trivial ‹¬True›
    · have hcf : fs.contains repo = false := by simpa using hc
      simp only [Repos.printLoop, hcf]
      simp only [Bool.false_eq_true, if_false]
      exact ih inv cur _ hrest

/-- C4: evaluation of Repos.print at a workspace whose first printed entry
exists but cannot be opened as a working tree.  The except handler marks the
record orphaned, but the fall through then reads the never assigned local
current_repo, so a NameError escapes the loop: no status line is printed and
the remaining entry beta is never inspected, contradicting the claim that one
bad folder never aborts the scan. -/
theorem print_raises_on_corrupt_first_entry :
    (Repos.print c4inv ["alpha", "beta"] c4git ["alpha", "beta"]).raised = true ∧
      (Repos.print c4inv ["alpha", "beta"] c4git ["alpha", "beta"]).lines = [] ∧
      (Repos.print c4inv ["alpha", "beta"] c4git ["alpha", "beta"]).active_repos =
        invSetOrphaned c4inv ("alpha") := by
  decide

/-- C5 counterexample: Repos.print mutates the inventory. When the working
tree of a printed name fails to open, the record orphaned flag is set, so the
inventory after rendering differs from the one before. -/
theorem print_mutates_inventory :
    (Repos.print c5inv ["alpha"] c5gitBad ["alpha"]).active_repos ≠ c5inv := by
  decide

/-- C5 (amended): Repos.print leaves the inventory records unchanged provided
every printed name that exists on disk opens successfully as a working tree;
only a failed open mutates a record (it sets the orphaned flag). -/
theorem print_pure_renderer (inv : Inventory) (fs : List String)
    (git : String → Option GitStatus) (repos : List String)
    (h : ∀ n ∈ repos, fs.contains n = true → (git n).isSome) :
    (Repos.print inv fs git repos).active_repos = inv :=
  printLoop_inv_const fs git repos inv none [] h

/-- Witness for the amended C5 statement at a concrete input. -/
theorem print_pure_renderer_witness :
    (Repos.print c5inv ["alpha"] cleanGit ["alpha"]).active_repos = c5inv :=
  print_pure_renderer c5inv ["alpha"] cleanGit ["alpha"] (by decide)

theorem get_records_not_orphaned (remote : List RemoteRepo) (u : String) :
    ∀ p ∈ Repos.get remote u, p.2.orphaned = false := by
  have hgen : ∀ (l : List RemoteRepo) (acc : Inventory),
      (∀ p ∈ acc, p.2.orphaned = false) →
      ∀ p ∈ List.foldl
        (fun active_repos repo =>
          if repo.owner == u then
            active_repos ++
              [(repo.name,
                { archived := repo.archived
                  created_at := repo.created_at
                  default_branch := repo.default_branch
                  git_url := repo.git_url
                  last_modified := repo.last_modified
                  orphaned := false
                  size := repo.size
                  ssh_url := repo.ssh_url
                  watchers_count := repo.watchers_count
                  visibility := repo.visibility })]
          else active_repos) acc l,
        p.2.orphaned = false := by
    intro l
    induction l with
    | nil => intro acc hacc p hp; exact hacc p hp
    | cons x xs ih =>
      intro acc hacc p hp
      simp only [List.foldl_cons] at hp
      by_cases hx : (x.owner == u) = true
      · rw [if_pos hx] at hp
        refine ih _ ?_ p hp
        intro q hq
        rcases List.mem_append.mp hq with hq1 | hq2
        · exact hacc q hq1
        · simp at hq2
          subst hq2
          rfl
      · rw [if_neg hx] at hp
        exact ih acc hacc p hp
  intro p hp
  unfold Repos.get at hp
  exact hgen remote [] (by simp) p hp

/-- C9: when the command line holds unrecognised tokens, parse_args aborts
(prints usage help and exits) iff the process is attached to an interactive
terminal (sys.stdin is present and a tty); a non interactive invocation with
the same tokens proceeds with the parsed flags. -/
theorem parse_args_abort_iff_interactive (argv : List String)
    (stdinPresent isatty : Bool) (h : (parseKnown argv).2 ≠ []) :
    (parse_args argv stdinPresent isatty = none) ↔
      (stdinPresent && isatty) = true := by
  unfold parse_args
  cases hcond : (stdinPresent && isatty) with
  | true =>
    have hemp : (parseKnown argv).2.isEmpty = false := by
      cases h2 : (parseKnown argv).2.isEmpty with
      | false => rfl
      | true => exact absurd (by simpa [List.isEmpty_iff] using h2) h
    simp [hcond, hemp]
  | false => simp [hcond]

/-- Witness for C9 at a concrete input: an unknown flag in an interactive
terminal aborts the run. -/
theorem parse_args_abort_witness :
    parse_args ["--frobnicate"] true true = none :=
  (parse_args_abort_iff_interactive ["--frobnicate"] true true (by decide)).mpr rfl

/-- C10: the missing computation run inside the Repos constructor returns the
empty list whatever the fetched repositories, the filesystem listing and the
flags are, because self.active_repos is still the empty dict at that point;
re-invoking Repos.missing once Repos.get has populated the inventory can
return a non empty set, as the concrete evaluation in the second conjunct
shows. -/
theorem init_missing_always_empty :
    (∀ (remote : List RemoteRepo) (fs : List String) (incl inter : Bool),
      (Repos.init remote fs incl inter).missing_repos = [])
    ∧ Repos.missing (Repos.get [demoRemote] ("user")) [] false = ["demo"] := by
  constructor
  · intro remote fs incl inter
    rfl
  · decide
